import Mathlib

/-!
Verification of the duplicate-identifier action batch-and-validate core.

The development shallowly embeds the TypeScript source:
* `chunk` (src/utils.ts) — the JS `for`-loop is modelled with explicit fuel
  (`chunkFuel`); `none` means the fuel ran out, and a result of `none` for
  every fuel amount models a non-terminating loop.
* `verifyJsonResponse` (src/utils.ts) — JSON values are modelled by `JsValue`;
  the function returns `Except String Bool`, where `.error` models a thrown
  JS exception.
* prompt building, report rendering and the parse/aggregate loop of `main`
  (src/index.ts) are modelled as pure string/list functions.
-/

namespace DupId

/-- JS `Array.prototype.slice(start, stop)` on a list, with the negative-index
and clamping semantics of JavaScript. -/
def jsSlice {α : Type _} (arr : List α) (start stop : Int) : List α :=
  let len : Int := arr.length
  let s : Int := if start < 0 then max (len + start) 0 else min start len
  let e : Int := if stop < 0 then max (len + stop) 0 else min stop len
  (arr.drop s.toNat).take (e - s).toNat

/-- The loop of `chunk` from src/utils.ts:
`for (let i = 0; i < arr.length; i += size) out.push(arr.slice(i, i + size));`
modelled with explicit fuel: one unit of fuel is spent per loop-condition
check, and `none` means the fuel was exhausted before the loop finished.
The JS loop has no other exit, so `none` for every fuel models divergence. -/
def chunkFuel {α : Type _} (arr : List α) (size : Int) :
    Nat → Int → List (List α) → Option (List (List α))
  | 0, _, _ => none
  | fuel + 1, i, out =>
    if i < (arr.length : Int) then
      chunkFuel arr size fuel (i + size) (out ++ [jsSlice arr i (i + size)])
    else
      some out

/-- Function `chunk` from src/utils.ts, run with enough fuel for any positive `size`
(`arr.length + 1` condition checks suffice when `size ≥ 1`). -/
def chunk {α : Type _} (arr : List α) (size : Int) : Option (List (List α)) :=
  chunkFuel arr size (arr.length + 1) 0 []

/-- The loop of `chunk` never finishes when `size ≤ 0` and the input is
non-empty: the statement that this holds for every fuel amount is the
divergence of the JS loop. -/
def chunkDiverges {α : Type _} (arr : List α) (size : Int) : Prop :=
  ∀ fuel : Nat, chunkFuel arr size fuel 0 [] = none

/-- Reference form of chunking: contiguous slices of length `k`
(last one shorter), written by structural descent on the list length. -/
def chunksOf {α : Type _} (k : Nat) (l : List α) : List (List α) :=
  if l.isEmpty || k == 0 then [] else l.take k :: chunksOf k (l.drop k)
  termination_by l.length
  decreasing_by
    simp only [Bool.or_eq_true, beq_iff_eq, List.isEmpty_eq_true, not_or] at *
    rename_i h
    have h1 : l ≠ [] := h.1
    have h2 : k ≠ 0 := h.2
    have : 0 < l.length := List.length_pos.mpr h1
    simp only [List.length_drop]
    omega

theorem chunksOf_nil {α : Type _} (k : Nat) : chunksOf k ([] : List α) = [] := by
  rw [chunksOf]
  simp

theorem chunksOf_cons {α : Type _} {k : Nat} {l : List α} (hl : l ≠ []) (hk : k ≠ 0) :
    chunksOf k l = l.take k :: chunksOf k (l.drop k) := by
  rw [chunksOf]
  simp [hl, hk]

theorem chunksOf_join {α : Type _} (k : Nat) (hk : k ≠ 0) :
    ∀ (n : Nat) (l : List α), l.length ≤ n → (chunksOf k l).flatten = l := by
  intro n
  induction n with
  | zero =>
    intro l hl
    have : l = [] := List.eq_nil_of_length_eq_zero (Nat.le_zero.mp hl)
    subst this
    simp [chunksOf_nil]
  | succ n ih =>
    intro l hl
    by_cases hnil : l = []
    · subst hnil; simp [chunksOf_nil]
    · rw [chunksOf_cons hnil hk]
      have hpos : 0 < l.length := List.length_pos.mpr hnil
      have hdrop : (l.drop k).length ≤ n := by
        simp only [List.length_drop]; omega
      simp [ih (l.drop k) hdrop]

theorem chunksOf_mem {α : Type _} (k : Nat) (hk : k ≠ 0) :
    ∀ (n : Nat) (l : List α), l.length ≤ n →
      ∀ c ∈ chunksOf k l, c.length ≤ k ∧ c ≠ [] := by
  intro n
  induction n with
  | zero =>
    intro l hl c hc
    have : l = [] := List.eq_nil_of_length_eq_zero (Nat.le_zero.mp hl)
    subst this
    simp [chunksOf_nil] at hc
  | succ n ih =>
    intro l hl c hc
    by_cases hnil : l = []
    · subst hnil; simp [chunksOf_nil] at hc
    · rw [chunksOf_cons hnil hk] at hc
      rcases List.mem_cons.mp hc with hc | hc
      · subst hc
        constructor
        · simp [List.length_take_le k l]
        · have hpos : 0 < l.length := List.length_pos.mpr hnil
          simp only [ne_eq, List.take_eq_nil_iff, not_or]
          exact ⟨hk, hnil⟩
      · have hdrop : (l.drop k).length ≤ n := by
          have hpos : 0 < l.length := List.length_pos.mpr hnil
          simp only [List.length_drop]; omega
        exact ih (l.drop k) hdrop c hc

/-- Every chunk except possibly the last has length exactly `k`. -/
theorem chunksOf_full {α : Type _} (k : Nat) (hk : k ≠ 0) :
    ∀ (n : Nat) (l : List α), l.length ≤ n →
      ∀ i : Nat, i + 1 < (chunksOf k l).length →
        ((chunksOf k l).getD i []).length = k := by
  intro n
  induction n with
  | zero =>
    intro l hl i hi
    have : l = [] := List.eq_nil_of_length_eq_zero (Nat.le_zero.mp hl)
    subst this
    simp [chunksOf_nil] at hi
  | succ n ih =>
    intro l hl i hi
    by_cases hnil : l = []
    · subst hnil; simp [chunksOf_nil] at hi
    · rw [chunksOf_cons hnil hk] at hi ⊢
      cases i with
      | zero =>
        simp only [List.length_cons] at hi
        have hrest : chunksOf k (l.drop k) ≠ [] := by
          intro h0
          rw [h0] at hi
          simp at hi
        have hdropne : l.drop k ≠ [] := by
          intro h0
          rw [h0, chunksOf_nil] at hrest
          exact hrest rfl
        have : k < l.length := by
          by_contra hle
          push_neg at hle
          exact hdropne (List.drop_eq_nil_of_le hle)
        simp only [List.getD_cons_zero, List.length_take]
        omega
      | succ j =>
        simp only [List.length_cons, Nat.add_lt_add_iff_right] at hi
        have hdrop : (l.drop k).length ≤ n := by
          have hpos : 0 < l.length := List.length_pos.mpr hnil
          simp only [List.length_drop]; omega
        simpa using ih (l.drop k) hdrop j hi

/-- For a non-negative start index inside the list and a positive size,
JS `arr.slice(i, i + size)` is `take size` of `drop i`. -/
theorem jsSlice_pos {α : Type _} (arr : List α) (i : Nat) (size : Int)
    (hi : i < arr.length) (hs : 0 < size) :
    jsSlice arr (i : Int) ((i : Int) + size) = (arr.drop i).take size.toNat := by
  unfold jsSlice
  have h0 : ¬ ((i : Int) < 0) := by omega
  have h1 : ¬ ((i : Int) + size < 0) := by omega
  have hmin : min (i : Int) (arr.length : Int) = (i : Int) := by
    apply min_eq_left; omega
  simp only [h0, if_false, h1, hmin]
  rcases le_or_lt ((i : Int) + size) (arr.length : Int) with hle | hlt
  · have hminr : min ((i : Int) + size) (arr.length : Int) = (i : Int) + size :=
      min_eq_left hle
    rw [hminr]
    have e1 : ((i : Int)).toNat = i := Int.toNat_natCast i
    have e2 : (i : Int) + size - (i : Int) = size := by ring
    rw [e1, e2]
  · have hminr : min ((i : Int) + size) (arr.length : Int) = (arr.length : Int) :=
      min_eq_right (le_of_lt hlt)
    rw [hminr]
    have hlen : (arr.drop i).length = arr.length - i := List.length_drop i arr
    have htoNat : (i : Int).toNat = i := Int.toNat_natCast i
    rw [htoNat]
    rw [List.take_of_length_le (by omega), List.take_of_length_le (by omega)]

/-- Bridge between the fueled JS loop and the structural `chunksOf`:
with positive size and enough fuel the loop returns the structural chunks. -/
theorem chunkFuel_eq {α : Type _} (arr : List α) (size : Int) (hs : 0 < size) :
    ∀ (fuel : Nat) (i : Nat) (out : List (List α)),
      arr.length < i + fuel → 0 < fuel →
      chunkFuel arr size fuel (i : Int) out
        = some (out ++ chunksOf size.toNat (arr.drop i)) := by
  intro fuel
  induction fuel with
  | zero => intro i out _ hf; omega
  | succ n ih =>
    intro i out hlt _
    by_cases hi : (i : Int) < (arr.length : Int)
    · have hi' : i < arr.length := by exact_mod_cast hi
      rw [chunkFuel, if_pos hi]
      have hcast : (i : Int) + size = ((i + size.toNat : Nat) : Int) := by
        omega
      rw [hcast]
      have hn : 0 < n := by omega
      have hlt' : arr.length < (i + size.toNat) + n := by omega
      rw [ih (i + size.toNat)
        (out ++ [jsSlice arr (i : Int) (((i + size.toNat : Nat) : Int))]) hlt' hn]
      have hdropne : arr.drop i ≠ [] := by
        intro h0
        have := List.drop_eq_nil_iff.mp h0
        omega
      have hk : size.toNat ≠ 0 := by omega
      rw [chunksOf_cons hdropne hk]
      have hslice : jsSlice arr (i : Int) (((i + size.toNat : Nat) : Int))
          = (arr.drop i).take size.toNat := by
        rw [← hcast]
        exact jsSlice_pos arr i size hi' hs
      rw [hslice]
      simp [List.drop_drop, Nat.add_comm]
    · rw [chunkFuel, if_neg hi]
      have hge : arr.length ≤ i := by omega
      rw [List.drop_eq_nil_of_le hge, chunksOf_nil]
      simp

/-- With a positive size, `chunk` terminates and computes `chunksOf`. -/
theorem chunk_eq_chunksOf {α : Type _} (arr : List α) (size : Int) (hs : 0 < size) :
    chunk arr size = some (chunksOf size.toNat arr) := by
  unfold chunk
  have h := chunkFuel_eq arr size hs (arr.length + 1) 0 [] (by omega) (by omega)
  simpa using h

/-- With `size ≤ 0` and a non-empty input, every fuel amount is exhausted:
the loop index never reaches the length, so the loop never finishes. -/
theorem chunkFuel_none_of_nonpos {α : Type _} {arr : List α} {size : Int}
    (harr : arr ≠ []) (hs : size ≤ 0) :
    ∀ (fuel : Nat) (i : Int), i ≤ 0 → ∀ out, chunkFuel arr size fuel i out = none := by
  intro fuel
  induction fuel with
  | zero => intro i _ out; rfl
  | succ n ih =>
    intro i hi out
    have hpos : 0 < arr.length := List.length_pos.mpr harr
    have hlt : i < (arr.length : Int) := by omega
    rw [chunkFuel, if_pos hlt]
    exact ih (i + size) (by omega) _

/-! ### JSON values and the response validator (src/utils.ts) -/

/-- A JSON value as produced by `JSON.parse`: `null`, booleans, numbers,
strings, arrays and objects.  Object keys are unique after `JSON.parse`
(later duplicates overwrite earlier ones), so an association list with
first-match lookup is a faithful model.  Numbers are modelled by `Int`;
no claim depends on non-integral JSON numbers. -/
inductive JsValue where
  | null : JsValue
  | bool (b : Bool) : JsValue
  | num (n : Int) : JsValue
  | str (s : String) : JsValue
  | arr (items : List JsValue) : JsValue
  | obj (fields : List (String × JsValue)) : JsValue

/-- JS `typeof`, restricted to JSON-representable values.  Note
`typeof null` and `typeof` of an array are both `"object"`. -/
def jsTypeof : JsValue → String
  | .null => "object"
  | .bool _ => "boolean"
  | .num _ => "number"
  | .str _ => "string"
  | .arr _ => "object"
  | .obj _ => "object"

/-- Is the value the JS `null` literal? -/
def isJsNull : JsValue → Bool
  | .null => true
  | _ => false

/-- JS property access `v[key]`: `none` models `undefined`.  Named JSON
fields exist only on objects (array index properties are numeric and
never collide with `"issue"`/`"likelihood"`). -/
def jsGetField : JsValue → String → Option JsValue
  | .obj fields, key => fields.lookup key
  | _, _ => none

/-- JS `String.prototype.toLowerCase` (per-character lower-casing, written
directly on the character list so that it evaluates by reduction). -/
def jsToLower (s : String) : String :=
  ⟨s.data.map Char.toLower⟩

/-- The expression `item?.likelihood?.toLowerCase()` applied to the value of
the `likelihood` property (`none` = property absent/`undefined`):
optional chaining short-circuits on `undefined` and `null`; on a string it
lower-cases; on any other value the call `.toLowerCase()` throws a
`TypeError`, modelled by `.error`. -/
def jsLikelihoodLower : Option JsValue → Except String (Option String)
  | none => .ok none
  | some .null => .ok none
  | some (.str s) => .ok (some (jsToLower s))
  | some _ => .error "TypeError: toLowerCase is not a function"

/-- The element loop of `verifyJsonResponse` (src/utils.ts).  `.error`
models a thrown JS exception escaping the function. -/
def verifyItems : List JsValue → Except String Bool
  | [] => .ok true
  | item :: rest =>
    if jsTypeof item != "object" || isJsNull item then .ok false
    else
      match jsGetField item "issue" with
      | some (.num _) =>
        match jsLikelihoodLower (jsGetField item "likelihood") with
        | .error e => .error e
        | .ok none => .ok false
        | .ok (some s) =>
          if s == "high" || s == "medium" || s == "low" then verifyItems rest
          else .ok false
      | _ => .ok false

/-- Function `verifyJsonResponse` from src/utils.ts: the `Array.isArray` gate, then the
per-element checks.  `.ok b` is the returned boolean, `.error` a thrown
exception. -/
def verifyJsonResponse : JsValue → Except String Bool
  | .arr items => verifyItems items
  | _ => .ok false

/-- Spec-side characterisation of a valid result element (§4.3 of the spec,
restated from its words): a non-null object whose `issue` field is a number
and whose `likelihood` field, lower-cased, is `high`, `medium` or `low`. -/
def specValidElement : JsValue → Bool
  | .obj fields =>
    (match fields.lookup "issue" with
     | some (.num _) => true
     | _ => false)
    &&
    (match fields.lookup "likelihood" with
     | some (.str s) =>
       jsToLower s == "high" || jsToLower s == "medium" || jsToLower s == "low"
     | _ => false)
  | _ => false

/-- Spec-side characterisation of an accepted response: an array all of
whose elements are valid. -/
def specValid : JsValue → Bool
  | .arr items => items.all specValidElement
  | _ => false

theorem verifyItems_ok_true_iff (items : List JsValue) :
    verifyItems items = .ok true ↔ items.all specValidElement = true := by
  induction items with
  | nil => simp [verifyItems]
  | cons item rest ih =>
    cases item with
    | null => simp [verifyItems, jsTypeof, isJsNull, specValidElement]
    | bool b => simp [verifyItems, jsTypeof, isJsNull, specValidElement]
    | num n => simp [verifyItems, jsTypeof, isJsNull, specValidElement]
    | str s => simp [verifyItems, jsTypeof, isJsNull, specValidElement]
    | arr xs => simp [verifyItems, jsTypeof, isJsNull, jsGetField, specValidElement]
    | obj fields =>
      simp only [verifyItems, jsTypeof, isJsNull, jsGetField]
      cases hissue : fields.lookup "issue" with
      | none => simp [specValidElement, hissue]
      | some vIssue =>
        cases vIssue with
        | num n =>
          cases hlike : fields.lookup "likelihood" with
          | none => simp [jsLikelihoodLower, specValidElement, hissue, hlike]
          | some vLike =>
            cases vLike with
            | null => simp [jsLikelihoodLower, specValidElement, hissue, hlike]
            | bool b => simp [jsLikelihoodLower, specValidElement, hissue, hlike]
            | num m => simp [jsLikelihoodLower, specValidElement, hissue, hlike]
            | arr ys => simp [jsLikelihoodLower, specValidElement, hissue, hlike]
            | obj g => simp [jsLikelihoodLower, specValidElement, hissue, hlike]
            | str s =>
              by_cases hval :
                  jsToLower s == "high" || jsToLower s == "medium" || jsToLower s == "low"
              · simp [jsLikelihoodLower, specValidElement, hissue, hlike, hval, ih]
              · simp [jsLikelihoodLower, specValidElement, hissue, hlike, hval]
        | null => simp [specValidElement, hissue]
        | bool b => simp [specValidElement, hissue]
        | str s => simp [specValidElement, hissue]
        | arr ys => simp [specValidElement, hissue]
        | obj g => simp [specValidElement, hissue]

theorem verifyJsonResponse_ok_true_iff (v : JsValue) :
    verifyJsonResponse v = .ok true ↔ specValid v = true := by
  cases v with
  | arr items => simpa [verifyJsonResponse, specValid] using verifyItems_ok_true_iff items
  | null => simp [verifyJsonResponse, specValid]
  | bool b => simp [verifyJsonResponse, specValid]
  | num n => simp [verifyJsonResponse, specValid]
  | str s => simp [verifyJsonResponse, specValid]
  | obj fields => simp [verifyJsonResponse, specValid]

/-! ### Data model (src/types.ts) -/

/-- Structure `Issue` from src/types.ts. -/
structure Issue where
  number : Int
  title : String
  body : String
  state : String
  createdAt : String
  updatedAt : String
deriving DecidableEq

/-- Structure `ParsedOutput` from src/types.ts: one validated judgment.  The
`likelihood` is kept as received (the validator lower-cases only for the
membership test). -/
structure ParsedOutput where
  issue : Int
  likelihood : String
  reason : Option String
deriving DecidableEq

/-! ### String helpers -/

/-- JS `Array.prototype.join(sep)`: empty array joins to `""`. -/
def joinSep (sep : String) : List String → String
  | [] => ""
  | [x] => x
  | x :: y :: rest => x ++ sep ++ joinSep sep (y :: rest)

theorem joinSep_cons_of_ne (sep x : String) {xs : List String} (h : xs ≠ []) :
    joinSep sep (x :: xs) = x ++ sep ++ joinSep sep xs := by
  cases xs with
  | nil => exact absurd rfl h
  | cons y ys => rfl

/-- The string `t` occurs as a contiguous substring of `s`. -/
def StrContains (s t : String) : Prop :=
  ∃ a b : String, s = a ++ t ++ b

theorem strContains_pre (t b : String) : StrContains (t ++ b) t :=
  ⟨"", b, by rw [String.empty_append]⟩

theorem strContains_append_left {s t : String} (x : String)
    (h : StrContains s t) : StrContains (x ++ s) t := by
  obtain ⟨a, b, rfl⟩ := h
  exact ⟨x ++ a, b, by simp [String.append_assoc]⟩

theorem strContains_append_right {s t : String} (x : String)
    (h : StrContains s t) : StrContains (s ++ x) t := by
  obtain ⟨a, b, rfl⟩ := h
  exact ⟨a, b ++ x, by simp [String.append_assoc]⟩

/-! ### Prompt building (src/utils.ts, src/index.ts) -/

/-- Constant `systemPromptMsg` from src/utils.ts, verbatim. -/
def systemPromptMsg : String :=
  "You are an assistant that identifies potential duplicate or semantically similar GitHub issues.\nReturn ONLY a JSON array. Include ONLY issues that have meaningful similarity to the current issue.\nOutput format example: [\x7b\"issue\":23,\"likelihood\":\"high\", \"reason\":\"Both issues refer to fixing a similar bug in the authentication flow.\"\x7d,\x7b\"issue\":30,\"likelihood\":\"medium\",\"reason\":\"Some overlapping content in the mention of processing error codes.\"\x7d]\nRules:\n- likelihood must be one of: high | medium | low\n- Provide at most 15 items.\n- If no sufficiently similar issues exist, return []\n- DO NOT add commentary, markdown, code fences, or any text outside the raw JSON array."

/-- Function `buildCurrentIssueSummary` from src/utils.ts. -/
def buildCurrentIssueSummary (issueNumber : Int) (issueTitle issueBody : String) :
    String :=
  "Current Issue (#" ++ toString issueNumber ++ ")\nTitle: " ++ issueTitle
    ++ "\nBody:\n" ++ issueBody

/-- JS number-to-string coercion, modelled on `Rat`: integral values print
as plain integers, exactly as in JS.  JS prints non-integral values as
decimal expansions; that rendering is abstracted as `num/den` here, and no
theorem below depends on the non-integral case. -/
def jsNumToString (q : Rat) : String :=
  if q.den = 1 then toString q.num
  else toString q.num ++ "/" ++ toString q.den

/-- One candidate as rendered in the batch prompt: `#<id> <title>` with the
body on the next line. -/
def issueBlock (issue : Issue) : String :=
  "#" ++ toString issue.number ++ " " ++ issue.title ++ "\n" ++ issue.body

/-- The candidate section of the prompt: issue blocks joined by `\n---\n`. -/
def batchText (batch : List Issue) : String :=
  joinSep "\n---\n" (batch.map issueBlock)

/-- The text returned by `buildBatchUserContent` on a non-empty batch. -/
def userContentText (currentIssueSummary : String) (batchId : Rat)
    (batch : List Issue) : String :=
  systemPromptMsg ++ "\n\n" ++ currentIssueSummary
    ++ "\n\nCandidate Issues (Batch " ++ jsNumToString batchId ++ "):\n"
    ++ batchText batch

/-- Function `buildBatchUserContent` from src/utils.ts; `.error` models the thrown
`Error("Batch cannot be empty")`.  The `batchId` parameter is a JS number
(a fraction in the caller, see `mainBatchId`). -/
def buildBatchUserContent (currentIssueSummary : String) (batchId : Rat)
    (batch : List Issue) : Except String String :=
  if batch.length = 0 then .error "Batch cannot be empty"
  else .ok (userContentText currentIssueSummary batchId batch)

/-- The batch id computed by `main` (src/index.ts line 120):
`const batchId = (i + 1) / batches.length;` — JS float division of the
0-based batch index + 1 by the total batch count.  Modelled with exact
rational division; at the inputs used in the theorems below the float
result is exactly representable, so the model agrees with JS. -/
def mainBatchId (i : Nat) (total : Nat) : Rat :=
  ((i : Rat) + 1) / (total : Rat)

/-! ### Report rendering (src/utils.ts `buildCommentBody` and the inline
comment loop of `main`, src/index.ts lines 194–207) -/

/-- JS `x || "N/A"` on an optional string: `undefined` and the empty string
(the only falsy strings) are replaced by the default. -/
def jsFalsyOr (v : Option String) (d : String) : String :=
  match v with
  | none => d
  | some s => if s = "" then d else s

/-- The lookup `issuesToCompare.find(...)` by `number === output.issue` (and the
`==` variant in `main` — identical on numbers). -/
def findCandidate (cands : List Issue) (n : Int) : Option Issue :=
  cands.find? fun c => c.number == n

/-- The fixed heading lines pushed before the per-result blocks (identical
in `buildCommentBody` and in `main`). -/
def commentHeader : List String :=
  ["## ⚠️ Potential Duplicate/Semantically Similar Issues Identified",
   "The following issues may be duplicates or semantically similar to the current issue. Please review them:",
   ""]

/-- The lines pushed for one result by `buildCommentBody` (src/utils.ts
lines 190–197): issue, title, state, reason, blank. -/
def recordBlock (cands : List Issue) (o : ParsedOutput) : List String :=
  ["**Issue** #" ++ toString o.issue ++ ": **" ++ o.likelihood ++ "**",
   "**Title:** " ++ jsFalsyOr ((findCandidate cands o.issue).map Issue.title) "N/A",
   "**State:** " ++ jsFalsyOr ((findCandidate cands o.issue).map Issue.state) "N/A",
   "**Reason:** " ++ jsFalsyOr o.reason "N/A",
   ""]

/-- The lines pushed for one result by the inline loop in `main`
(src/index.ts lines 200–206): same as `recordBlock` without the state. -/
def mainRecordBlock (cands : List Issue) (o : ParsedOutput) : List String :=
  ["**Issue** #" ++ toString o.issue ++ ": **" ++ o.likelihood ++ "**",
   "**Title:** " ++ jsFalsyOr ((findCandidate cands o.issue).map Issue.title) "N/A",
   "**Reason:** " ++ jsFalsyOr o.reason "N/A",
   ""]

/-- All lines of the full report (non-empty case of `buildCommentBody`). -/
def buildCommentBodyLines (outputs : List ParsedOutput) (cands : List Issue) :
    List String :=
  commentHeader ++ (outputs.map (recordBlock cands)).flatten

/-- Function `buildCommentBody` from src/utils.ts. -/
def buildCommentBody (outputs : List ParsedOutput) (cands : List Issue) : String :=
  if outputs.length = 0 then "No similar issues found."
  else joinSep "\n" (buildCommentBodyLines outputs cands)

/-- All comment lines built inline by `main` (src/index.ts lines 194–206);
`main` reaches this code only with a non-empty `parsedOutputs`. -/
def mainCommentLines (outputs : List ParsedOutput) (cands : List Issue) :
    List String :=
  commentHeader ++ (outputs.map (mainRecordBlock cands)).flatten

/-- The `commentBody` string as joined by `main` (src/index.ts line 207). -/
def mainCommentBody (outputs : List ParsedOutput) (cands : List Issue) : String :=
  joinSep "\n" (mainCommentLines outputs cands)

/-- A report line whose first ten characters are `**State:**` — the textual
shape of the state lines emitted by `buildCommentBody`. -/
def isStateLine (l : String) : Bool :=
  l.data.take 10 == "**State:**".data

/-! ### The batch pipeline of `main` (src/index.ts lines 109–180) -/

/-- A raw response text from one inference call, classified by what
`JSON.parse` does to it: every string either fails to parse or parses to a
unique `JsValue`. -/
inductive RawText where
  | malformed : RawText
  | parsed (v : JsValue) : RawText

/-- The elements of a JS array value (a verified response is an array). -/
def jsArrayElems : JsValue → List JsValue
  | .arr items => items
  | _ => []

/-- The `aiOutputs` collection loop (src/index.ts lines 118–150): one
inference call per batch index, keeping only truthy responses (`undefined`
— and the falsy empty string — are skipped). `respond i` is the response of
the call for batch `i`; `none` models a falsy response. -/
def collectAiOutputs (numBatches : Nat) (respond : Nat → Option RawText) :
    List RawText :=
  (List.range numBatches).filterMap respond

/-- The parse-and-accumulate loop over `aiOutputs` (src/index.ts lines
154–180), with the accumulator `parsedOutputs` explicit.  A parse failure
or a thrown validation error is caught (`catch`/`continue`); a `false`
validation skips the batch; `parsed?.length ? parsedOutputs.concat(parsed)
: parsedOutputs` appends the elements of the array. -/
def parseLoop : List RawText → List JsValue → List JsValue
  | [], acc => acc
  | .malformed :: rest, acc => parseLoop rest acc
  | .parsed v :: rest, acc =>
    match verifyJsonResponse v with
    | .ok true =>
      parseLoop rest (if (jsArrayElems v).isEmpty then acc else acc ++ jsArrayElems v)
    | _ => parseLoop rest acc

/-- The aggregate `parsedOutputs` produced by the two loops of `main` for a given
candidate list, batch size and per-batch responses. -/
def pipelineAggregate (candidates : List Issue) (batchSize : Int)
    (respond : Nat → Option RawText) : List JsValue :=
  match chunk candidates batchSize with
  | some batches => parseLoop (collectAiOutputs batches.length respond) []
  | none => []

/-- What the response of one batch contributes to the aggregate. -/
def batchContribution (r : Option RawText) : List JsValue :=
  match r with
  | some (.parsed v) =>
    match verifyJsonResponse v with
    | .ok true => jsArrayElems v
    | _ => []
  | _ => []

theorem parseLoop_eq (l : List RawText) :
    ∀ acc, parseLoop l acc
      = acc ++ (l.map fun r => batchContribution (some r)).flatten := by
  induction l with
  | nil => intro acc; simp [parseLoop]
  | cons r rest ih =>
    intro acc
    cases r with
    | malformed => simp [parseLoop, batchContribution, ih]
    | parsed v =>
      simp only [parseLoop]
      cases hv : verifyJsonResponse v with
      | error e => simp [batchContribution, hv, ih]
      | ok b =>
        cases b with
        | false => simp [batchContribution, hv, ih]
        | true =>
          by_cases he : (jsArrayElems v).isEmpty
          · have : jsArrayElems v = [] := by simpa using he
            simp [batchContribution, hv, ih, he, this]
          · simp [batchContribution, hv, ih, he]

theorem parseLoop_filterMap (respond : Nat → Option RawText) (idxs : List Nat) :
    parseLoop (idxs.filterMap respond) []
      = (idxs.map fun i => batchContribution (respond i)).flatten := by
  induction idxs with
  | nil => simp [parseLoop]
  | cons i rest ih =>
    cases hr : respond i with
    | none => simp [List.filterMap_cons, hr, ih, batchContribution]
    | some r =>
      have h2 : (List.map (fun r => batchContribution (some r))
            (List.filterMap respond rest)).flatten
          = (List.map (fun i => batchContribution (respond i)) rest).flatten := by
        rw [← ih, parseLoop_eq]
        simp
      simp only [List.filterMap_cons, hr, List.map_cons, List.flatten_cons]
      rw [parseLoop_eq]
      simp [h2]

theorem isStateLine_issue (x : String) :
    isStateLine ("**Issue** #" ++ x) = false := by
  simp only [isStateLine, String.data_append, List.take_append_eq_append_take]
  simp

theorem isStateLine_title (x : String) :
    isStateLine ("**Title:** " ++ x) = false := by
  simp only [isStateLine, String.data_append, List.take_append_eq_append_take]
  simp

theorem isStateLine_reason (x : String) :
    isStateLine ("**Reason:** " ++ x) = false := by
  simp only [isStateLine, String.data_append, List.take_append_eq_append_take]
  simp

theorem isStateLine_state (x : String) :
    isStateLine ("**State:** " ++ x) = true := by
  simp only [isStateLine, String.data_append, List.take_append_eq_append_take]
  simp

theorem isStateLine_empty : isStateLine "" = false := by decide

/-- Filtering the state lines out of one full-report record block yields
exactly the record block built inline by `main`. -/
theorem recordBlock_filter (cands : List Issue) (o : ParsedOutput) :
    (recordBlock cands o).filter (fun l => !(isStateLine l))
      = mainRecordBlock cands o := by
  simp [recordBlock, mainRecordBlock, List.filter, String.append_assoc,
    isStateLine_issue, isStateLine_title, isStateLine_reason, isStateLine_state,
    isStateLine_empty]

theorem commentHeader_filter :
    commentHeader.filter (fun l => !(isStateLine l)) = commentHeader := by
  decide

/-! ### Claim theorems -/

/-- C4: for every sequence `S` and size `k > 0`, the slices of `chunk S k`
concatenate back to `S` in order, every slice has length at most `k` and is
non-empty (so the last has length in `[1, k]`), every slice except possibly
the last has length exactly `k`, and `chunk [] k = []` (zero batches). -/
theorem chunk_pos_spec {α : Type _} (S : List α) (k : Int) (hk : 0 < k) :
    chunk S k = some (chunksOf k.toNat S) ∧
    (chunksOf k.toNat S).flatten = S ∧
    (∀ c ∈ chunksOf k.toNat S, c.length ≤ k.toNat ∧ c ≠ []) ∧
    (∀ i : Nat, i + 1 < (chunksOf k.toNat S).length →
      ((chunksOf k.toNat S).getD i []).length = k.toNat) ∧
    chunk ([] : List α) k = some [] := by
  have hk0 : k.toNat ≠ 0 := by omega
  refine ⟨chunk_eq_chunksOf S k hk,
    chunksOf_join k.toNat hk0 S.length S le_rfl,
    fun c hc => chunksOf_mem k.toNat hk0 S.length S le_rfl c hc,
    fun i hi => chunksOf_full k.toNat hk0 S.length S le_rfl i hi, ?_⟩
  rw [chunk_eq_chunksOf ([] : List α) k hk, chunksOf_nil]

/-- Witness for C4 at `S = [1,…,7]`, `k = 3`. -/
theorem chunk_pos_spec_witness :
    (0 : Int) < 3 ∧
    chunk ([1, 2, 3, 4, 5, 6, 7] : List Nat) 3
      = some (chunksOf 3 [1, 2, 3, 4, 5, 6, 7]) ∧
    chunk ([1, 2, 3, 4, 5, 6, 7] : List Nat) 3 = some [[1, 2, 3], [4, 5, 6], [7]] :=
  ⟨by decide, (chunk_pos_spec [1, 2, 3, 4, 5, 6, 7] 3 (by decide)).1, rfl⟩

/-- C9: `chunk` terminates with a value for every input when `size > 0` and
for the empty input at any size, but for a non-empty input and `size ≤ 0`
the loop never finishes (`chunkDiverges`: the fuelled loop returns nothing
for every fuel amount), so no error is raised and no value returned. -/
theorem chunk_termination_dichotomy {α : Type _} (arr : List α) (size : Int) :
    (0 < size → chunk arr size = some (chunksOf size.toNat arr)) ∧
    chunk ([] : List α) size = some [] ∧
    (arr ≠ [] → size ≤ 0 → chunkDiverges arr size) := by
  refine ⟨fun hs => chunk_eq_chunksOf arr size hs, rfl,
    fun hne hnp fuel => chunkFuel_none_of_nonpos hne hnp fuel 0 le_rfl []⟩

/-- Witness for C9: termination at size 2 on `[1]`, divergence (at fuel 5)
at size 0. -/
theorem chunk_termination_dichotomy_witness :
    chunk ([1] : List Nat) 2 = some (chunksOf 2 [1]) ∧
    chunkFuel ([1] : List Nat) 0 5 0 [] = none :=
  ⟨(chunk_termination_dichotomy [1] 2).1 (by decide),
   (chunk_termination_dichotomy [1] 0).2.2 (by decide) (by decide) 5⟩

/-- C5 counterexample: on the non-empty input `[1]` with size `0`, `chunk`
raises nothing and returns nothing — the loop diverges (no fuel amount
finishes it), so it does not fail with an `InvalidArgument` error. -/
theorem chunk_nonpos_no_error_counterexample : chunkDiverges ([1] : List Nat) 0 :=
  fun fuel => chunkFuel_none_of_nonpos (by decide) (by decide) fuel 0 le_rfl []

/-- C5 amended: `chunk` performs no validation of `size`.  For `size ≤ 0` it
raises no error: on a non-empty input the loop never terminates, and on the
empty input it returns `[]`.  (The `batch_size` guard lives in `main`,
before `chunk` is called.) -/
theorem chunk_nonpos_behavior {α : Type _} (arr : List α) (size : Int)
    (hs : size ≤ 0) :
    (arr ≠ [] → chunkDiverges arr size) ∧ chunk ([] : List α) size = some [] :=
  ⟨fun hne fuel => chunkFuel_none_of_nonpos hne hs fuel 0 le_rfl [], rfl⟩

/-- Witness for the amended C5 at `arr = [2,3]`, `size = -1`. -/
theorem chunk_nonpos_behavior_witness :
    chunkDiverges ([2, 3] : List Nat) (-1) ∧
    chunk ([] : List Nat) (-1) = some [] :=
  ⟨(chunk_nonpos_behavior [2, 3] (-1) (by decide)).1 (by decide),
   (chunk_nonpos_behavior ([] : List Nat) (-1) (by decide)).2⟩

/-- C2 (code-bug evidence): on `[{"issue": 1, "likelihood": 5}]` the
validator does not return `false` — evaluating
`item?.likelihood?.toLowerCase()` on the number `5` throws a `TypeError`
(optional chaining only guards `null`/`undefined`), contradicting the
documented no-throw contract. -/
theorem verifyJsonResponse_throws_on_nonstring_likelihood :
    verifyJsonResponse (.arr [.obj [("issue", .num 1), ("likelihood", .num 5)]])
      = .error "TypeError: toLowerCase is not a function" := rfl

/-- C3: `verifyJsonResponse` returns `true` exactly on arrays whose elements
are non-null objects with a numeric `issue` and a string `likelihood` that
lower-cases into \x7bhigh, medium, low\x7d; in particular it accepts `[]`,
the two-element example and a mixed-case likelihood, and rejects a bare
object, `[1,2,3]`, a missing `issue`, a string `issue` and an unknown
likelihood. -/
theorem verifyJsonResponse_accepts_iff :
    (∀ v : JsValue, verifyJsonResponse v = .ok true ↔ specValid v = true) ∧
    verifyJsonResponse (.arr []) = .ok true ∧
    verifyJsonResponse (.arr [.obj [("issue", .num 1), ("likelihood", .str "high")],
      .obj [("issue", .num 2), ("likelihood", .str "low"), ("reason", .str "x")]])
      = .ok true ∧
    verifyJsonResponse (.arr [.obj [("issue", .num 1), ("likelihood", .str "High")]])
      = .ok true ∧
    verifyJsonResponse (.obj [("issue", .num 1), ("likelihood", .str "high")])
      = .ok false ∧
    verifyJsonResponse (.arr [.num 1, .num 2, .num 3]) = .ok false ∧
    verifyJsonResponse (.arr [.obj [("likelihood", .str "high")]]) = .ok false ∧
    verifyJsonResponse (.arr [.obj [("issue", .str "1"), ("likelihood", .str "high")]])
      = .ok false ∧
    verifyJsonResponse (.arr [.obj [("issue", .num 1), ("likelihood", .str "certain")]])
      = .ok false :=
  ⟨verifyJsonResponse_ok_true_iff, rfl, rfl, rfl, rfl, rfl, rfl, rfl, rfl⟩

/-- C6 (code-bug evidence): the batch id `main` embeds in the prompt header
is `(i + 1) / batches.length`, a fraction — for the first of two batches it
is `1/2` (JS renders `Batch 0.5`, and `0.5` is exactly representable in
float64, so the rational model is exact here), not the 1-based integer `1`
the header is specified to embed.  Only a single-batch run gets an
integral id. -/
theorem mainBatchId_fractional :
    mainBatchId 0 2 = (1 : Rat) / 2 ∧
    mainBatchId 0 2 ≠ ((0 : Rat) + 1) ∧
    mainBatchId 0 1 = 1 := by
  refine ⟨by norm_num [mainBatchId], by norm_num [mainBatchId],
    by norm_num [mainBatchId]⟩

theorem strContains_issueBlock (x : Issue) :
    StrContains (issueBlock x) ("#" ++ toString x.number ++ " " ++ x.title) := by
  have h : issueBlock x
      = ("#" ++ toString x.number ++ " " ++ x.title) ++ ("\n" ++ x.body) := by
    simp [issueBlock, String.append_assoc]
  rw [h]
  exact strContains_pre _ _

theorem batchText_contains (batch : List Issue) :
    ∀ issue ∈ batch,
      StrContains (batchText batch) ("#" ++ toString issue.number ++ " " ++ issue.title) := by
  induction batch with
  | nil => simp
  | cons x xs ih =>
    intro issue hmem
    rcases List.mem_cons.mp hmem with h | h
    · subst h
      cases xs with
      | nil => exact strContains_issueBlock issue
      | cons y ys =>
        have hjoin : batchText (issue :: y :: ys)
            = issueBlock issue ++ "\n---\n" ++ batchText (y :: ys) := by
          simp [batchText, joinSep_cons_of_ne]
        rw [hjoin]
        exact strContains_append_right _
          (strContains_append_right _ (strContains_issueBlock issue))
    · cases xs with
      | nil => simp at h
      | cons y ys =>
        have hjoin : batchText (x :: y :: ys)
            = issueBlock x ++ "\n---\n" ++ batchText (y :: ys) := by
          simp [batchText, joinSep_cons_of_ne]
        rw [hjoin]
        have : StrContains (batchText (y :: ys))
            ("#" ++ toString issue.number ++ " " ++ issue.title) := ih issue h
        have h2 := strContains_append_left "\n---\n" this
        have h3 := strContains_append_left (issueBlock x) h2
        simpa [String.append_assoc] using h3

/-- C7: `buildBatchUserContent` fails with the batch-empty error exactly on
an empty batch; on a non-empty batch its output contains the system
instruction block, the target summary, and the id and title of every candidate. -/
theorem buildBatchUserContent_spec (s : String) (q : Rat) (batch : List Issue) :
    (batch = [] → buildBatchUserContent s q batch = .error "Batch cannot be empty") ∧
    (batch ≠ [] →
      buildBatchUserContent s q batch = .ok (userContentText s q batch) ∧
      StrContains (userContentText s q batch) systemPromptMsg ∧
      StrContains (userContentText s q batch) s ∧
      ∀ issue ∈ batch,
        StrContains (userContentText s q batch)
          ("#" ++ toString issue.number ++ " " ++ issue.title)) := by
  constructor
  · intro h
    subst h
    rfl
  · intro h
    have hlen : batch.length ≠ 0 := by
      simpa [List.length_eq_zero] using h
    refine ⟨by simp [buildBatchUserContent, hlen], ?_, ?_, ?_⟩
    · exact ⟨"", "\n\n" ++ s ++ "\n\nCandidate Issues (Batch "
        ++ jsNumToString q ++ "):\n" ++ batchText batch,
        by simp [userContentText, String.append_assoc, String.empty_append]⟩
    · exact ⟨systemPromptMsg ++ "\n\n", "\n\nCandidate Issues (Batch "
        ++ jsNumToString q ++ "):\n" ++ batchText batch,
        by simp [userContentText, String.append_assoc]⟩
    · intro issue hmem
      have hbt := batchText_contains batch issue hmem
      have h2 := strContains_append_left (systemPromptMsg ++ "\n\n" ++ s
        ++ "\n\nCandidate Issues (Batch " ++ jsNumToString q ++ "):\n") hbt
      have he : userContentText s q batch
          = (systemPromptMsg ++ "\n\n" ++ s ++ "\n\nCandidate Issues (Batch "
            ++ jsNumToString q ++ "):\n") ++ batchText batch := by
        simp [userContentText, String.append_assoc]
      rw [he]
      exact h2

/-- A concrete candidate for the C7 witness. -/
def wIssue : Issue :=
  ⟨101, "Batch Issue 1", "Body of batch issue 1", "open", "", ""⟩

/-- Witness for C7: empty batch errors; on `[wIssue]` the output contains
the system prompt, the summary and the id and title of the candidate. -/
theorem buildBatchUserContent_spec_witness :
    buildBatchUserContent "S" 1 ([] : List Issue) = .error "Batch cannot be empty" ∧
    buildBatchUserContent "S" 1 [wIssue] = .ok (userContentText "S" 1 [wIssue]) ∧
    StrContains (userContentText "S" 1 [wIssue]) systemPromptMsg ∧
    StrContains (userContentText "S" 1 [wIssue]) "S" ∧
    StrContains (userContentText "S" 1 [wIssue])
      ("#" ++ toString (101 : Int) ++ " " ++ "Batch Issue 1") := by
  have h := (buildBatchUserContent_spec "S" 1 [wIssue]).2 (by simp)
  exact ⟨(buildBatchUserContent_spec "S" 1 []).1 rfl, h.1, h.2.1, h.2.2.1,
    h.2.2.2 wIssue (by simp)⟩

/-- Remove every `**State:** …` line from a list of report lines. -/
def removeStateLines (lines : List String) : List String :=
  lines.filter fun l => !(isStateLine l)

theorem filter_blocks (outputs : List ParsedOutput) (cands : List Issue) :
    removeStateLines ((outputs.map (recordBlock cands)).flatten)
      = (outputs.map (mainRecordBlock cands)).flatten := by
  induction outputs with
  | nil => simp [removeStateLines]
  | cons o rest ih =>
    simp only [List.map_cons, List.flatten_cons, removeStateLines,
      List.filter_append] at *
    rw [ih]
    have := recordBlock_filter cands o
    rw [this]

/-- C8: for a non-empty validated result list, the comment body built inline
by `main` (no state line) is exactly the full `buildCommentBody` rendering
with every `**State:** …` line removed — both shapes are the same
line-by-line rendering, joined by newlines, differing only by the state
field; and the empty case of the full renderer is the fixed no-results text. -/
theorem commentBody_trimmed_eq (outputs : List ParsedOutput) (cands : List Issue)
    (h : outputs ≠ []) :
    mainCommentLines outputs cands
      = removeStateLines (buildCommentBodyLines outputs cands) ∧
    mainCommentBody outputs cands
      = joinSep "\n" (removeStateLines (buildCommentBodyLines outputs cands)) ∧
    buildCommentBody outputs cands = joinSep "\n" (buildCommentBodyLines outputs cands) ∧
    buildCommentBody [] cands = "No similar issues found." := by
  have h1 : mainCommentLines outputs cands
      = removeStateLines (buildCommentBodyLines outputs cands) := by
    simp only [mainCommentLines, buildCommentBodyLines, removeStateLines,
      List.filter_append]
    rw [commentHeader_filter]
    have hb := filter_blocks outputs cands
    simp only [removeStateLines] at hb
    rw [hb]
  have hlen : outputs.length ≠ 0 := by
    simpa [List.length_eq_zero] using h
  exact ⟨h1, by rw [mainCommentBody, h1], by simp [buildCommentBody, hlen], rfl⟩

/-- A concrete validated result for the C8 witness. -/
def wOut : ParsedOutput := ⟨5, "high", none⟩

/-- Witness for C8 at the one-element result list `[wOut]` and no
candidates. -/
theorem commentBody_trimmed_eq_witness :
    mainCommentBody [wOut] [] = joinSep "\n" (removeStateLines (buildCommentBodyLines [wOut] [])) ∧
    buildCommentBody [wOut] [] = joinSep "\n" (buildCommentBodyLines [wOut] []) := by
  have h := commentBody_trimmed_eq [wOut] [] (by simp)
  exact ⟨h.2.1, h.2.2.1⟩

/-- C10: every falsy rendered field is independently coerced to `N/A`: a
matched candidate with an empty-string title renders the `N/A` title line
(in the full and the trimmed block); one with an empty-string state renders
the `N/A` state line; a missing candidate renders both; and an empty-string
reason renders the `N/A` reason line — each field exactly as when the
candidate is missing or the reason absent, so an empty-string field is
indistinguishable in the report from a missing one.  (The record lines are,
in order: issue, title, state, reason, blank — state omitted in the trimmed
block.) -/
theorem render_falsy_to_NA (o : ParsedOutput) (cands : List Issue) (c : Issue) :
    (findCandidate cands o.issue = some c → c.title = "" →
      (recordBlock cands o).getD 1 "" = "**Title:** N/A" ∧
      (mainRecordBlock cands o).getD 1 "" = "**Title:** N/A" ∧
      (recordBlock cands o).getD 1 "" = (recordBlock [] o).getD 1 "") ∧
    (findCandidate cands o.issue = some c → c.state = "" →
      (recordBlock cands o).getD 2 "" = "**State:** N/A" ∧
      (recordBlock cands o).getD 2 "" = (recordBlock [] o).getD 2 "") ∧
    (findCandidate cands o.issue = none →
      (recordBlock cands o).getD 1 "" = "**Title:** N/A" ∧
      (recordBlock cands o).getD 2 "" = "**State:** N/A") ∧
    (o.reason = some "" →
      (recordBlock cands o).getD 3 "" = "**Reason:** N/A" ∧
      (mainRecordBlock cands o).getD 2 "" = "**Reason:** N/A" ∧
      (recordBlock cands o).getD 3 ""
        = (recordBlock cands ⟨o.issue, o.likelihood, none⟩).getD 3 "") := by
  have hnil : findCandidate ([] : List Issue) o.issue = none := rfl
  refine ⟨fun hf ht => ?_, fun hf hs => ?_, fun hf => ?_, fun hr => ?_⟩
  · simp [recordBlock, mainRecordBlock, hf, hnil, ht, jsFalsyOr]
  · simp [recordBlock, hf, hnil, hs, jsFalsyOr]
  · simp [recordBlock, hf, jsFalsyOr]
  · simp [recordBlock, mainRecordBlock, hr, jsFalsyOr]

/-- Candidate for the C10 witness with an empty title but a populated
state. -/
def wTitleCand : Issue := ⟨1, "", "some body", "open", "", ""⟩

/-- Candidate for the C10 witness with a populated title but an empty
state. -/
def wStateCand : Issue := ⟨2, "A title", "some body", "", "", ""⟩

/-- Result for the C10 witness matching `wTitleCand`, with a populated
reason. -/
def wTitleOut : ParsedOutput := ⟨1, "high", some "a reason"⟩

/-- Result for the C10 witness matching `wStateCand`, with no reason. -/
def wStateOut : ParsedOutput := ⟨2, "medium", none⟩

/-- Result for the C10 witness with an empty-string reason and no matching
candidate. -/
def wReasonOut : ParsedOutput := ⟨3, "low", some ""⟩

/-- Witness for C10, exercising each falsy field independently: an empty
title with state `"open"`, an empty state with a populated title, an
unmatched candidate, and an empty reason on its own. -/
theorem render_falsy_to_NA_witness :
    (recordBlock [wTitleCand] wTitleOut).getD 1 "" = "**Title:** N/A" ∧
    (recordBlock [wStateCand] wStateOut).getD 2 "" = "**State:** N/A" ∧
    (recordBlock [] wReasonOut).getD 1 "" = "**Title:** N/A" ∧
    (recordBlock [] wReasonOut).getD 3 "" = "**Reason:** N/A" := by
  refine ⟨((render_falsy_to_NA wTitleOut [wTitleCand] wTitleCand).1 rfl rfl).1,
    ((render_falsy_to_NA wStateOut [wStateCand] wStateCand).2.1 rfl rfl).1,
    ((render_falsy_to_NA wReasonOut [] wTitleCand).2.2.1 rfl).1,
    ((render_falsy_to_NA wReasonOut [] wTitleCand).2.2.2 rfl).1⟩

/-- C1: in a run with 7 candidates and batch size 3, `main` makes one
inference call per batch over exactly 3 batches of sizes 3, 3, 1; and for
every sequence of per-batch responses the aggregate is the concatenation,
in batch order, of the contribution of each batch — a batch whose response
text is not parseable JSON contributes nothing, without affecting the other
validated results of the other batches. -/
theorem pipeline_batches_and_isolation (candidates : List Issue)
    (respond : Nat → Option RawText) (h : candidates.length = 7) :
    chunk candidates 3 = some (chunksOf 3 candidates) ∧
    (chunksOf 3 candidates).map List.length = [3, 3, 1] ∧
    pipelineAggregate candidates 3 respond
      = ((List.range 3).map fun i => batchContribution (respond i)).flatten ∧
    batchContribution (some .malformed) = [] := by
  have hchunk : chunk candidates 3 = some (chunksOf 3 candidates) :=
    chunk_eq_chunksOf candidates 3 (by norm_num)
  rcases candidates with _ | ⟨a, _ | ⟨b, _ | ⟨c, _ | ⟨d, _ | ⟨e, _ | ⟨f, _ | ⟨g, t⟩⟩⟩⟩⟩⟩⟩ <;>
    simp only [List.length_cons, List.length_nil] at h
  · omega
  · omega
  · omega
  · omega
  · omega
  · omega
  · omega
  · have ht : t = [] := by
      have : t.length = 0 := by omega
      simpa [List.length_eq_zero] using this
    subst ht
    have hsh : chunksOf 3 [a, b, c, d, e, f, g]
        = [[a, b, c], [d, e, f], [g]] := by
      rw [chunksOf_cons (by simp) (by norm_num)]
      simp only [List.take_succ_cons, List.take_zero, List.drop_succ_cons,
        List.drop_zero]
      rw [chunksOf_cons (by simp) (by norm_num)]
      simp only [List.take_succ_cons, List.take_zero, List.drop_succ_cons,
        List.drop_zero]
      rw [chunksOf_cons (by simp) (by norm_num)]
      simp only [List.take_succ_cons, List.take_nil, List.drop_succ_cons,
        List.drop_nil]
      rw [chunksOf_nil]
    refine ⟨hchunk, by rw [hsh]; rfl, ?_, rfl⟩
    rw [pipelineAggregate, hchunk, hsh]
    exact parseLoop_filterMap respond (List.range 3)

/-- Seven concrete candidates for the C1 witness. -/
def wCands : List Issue :=
  [⟨1, "t1", "b1", "open", "", ""⟩, ⟨2, "t2", "b2", "open", "", ""⟩,
   ⟨3, "t3", "b3", "open", "", ""⟩, ⟨4, "t4", "b4", "open", "", ""⟩,
   ⟨5, "t5", "b5", "open", "", ""⟩, ⟨6, "t6", "b6", "open", "", ""⟩,
   ⟨7, "t7", "b7", "open", "", ""⟩]

/-- One valid single-match response element for the C1 witness. -/
def wMatch (n : Int) : JsValue :=
  .obj [("issue", .num n), ("likelihood", .str "high")]

/-- The responses used by the C1 witness: batch 1 (index 0) and batch 3 (index 2)
each return one valid match, batch 2 (index 1) returns unparseable text. -/
def wRespond : Nat → Option RawText := fun i =>
  if i = 0 then some (.parsed (.arr [wMatch 10]))
  else if i = 1 then some .malformed
  else some (.parsed (.arr [wMatch 30]))

/-- Witness for C1: with batch 2 malformed, the aggregate is exactly
`[match of batch 1, match of batch 3]`, in batch order. -/
theorem pipeline_batches_and_isolation_witness :
    wCands.length = 7 ∧
    pipelineAggregate wCands 3 wRespond = [wMatch 10, wMatch 30] := by
  refine ⟨rfl, ?_⟩
  have h := pipeline_batches_and_isolation wCands wRespond rfl
  rw [h.2.2.1]
  rfl

end DupId
